import Mathlib

/-!
Verification of the streamlit-rag knowledge-graph visualizer (`src/app.py`).

The development shallowly embeds the Python/JavaScript source:

* `create_graph_from_csv` (graph builder over `networkx.Graph`),
* `color_communities_girvan_newman` (divisive community coloring),
* the lasso-selection overlay of `draw_graph_with_lasso_and_textbox`
  (the `highlightNodes`, `revertNodesToDefault`, `isInsidePolygon` helper
  functions and the checkbox/mousedown/mousemove/mouseup/submit handlers).

Machine reals of the JavaScript side are modelled as rationals; the
renderer (vis-network) is an external collaborator and its node-style
store is modelled from the Render Adapter contract of the spec.
-/

namespace StreamlitRag

/-! ### Generic first-occurrence insertion

`networkx.Graph` keeps at most one node per id and one edge per unordered
endpoint pair; we phrase both through first-occurrence insertion into a list. -/

/-- Insert `x` at the end of `l` unless it is already present. -/
def insertAbsent {α : Type} [DecidableEq α] (l : List α) (x : α) : List α :=
  if x ∈ l then l else l ++ [x]

/-- Insert every element of `s`, in order, by `insertAbsent`. -/
def insertAll {α : Type} [DecidableEq α] (l : List α) (s : List α) : List α :=
  s.foldl insertAbsent l

theorem insertAbsent_of_mem {α : Type} [DecidableEq α] {l : List α} {x : α}
    (h : x ∈ l) : insertAbsent l x = l := by
  simp [insertAbsent, h]

theorem mem_insertAbsent {α : Type} [DecidableEq α] (l : List α) (x y : α) :
    y ∈ insertAbsent l x ↔ y ∈ l ∨ y = x := by
  unfold insertAbsent
  by_cases h : x ∈ l
  · rw [if_pos h]
    constructor
    · exact Or.inl
    · rintro (hy | rfl)
      · exact hy
      · exact h
  · rw [if_neg h]
    simp

theorem nodup_insertAbsent {α : Type} [DecidableEq α] (l : List α) (x : α)
    (hl : l.Nodup) : (insertAbsent l x).Nodup := by
  unfold insertAbsent
  by_cases h : x ∈ l <;> simp [h, List.nodup_append, hl]

theorem insertAll_append {α : Type} [DecidableEq α] (l : List α) (s t : List α) :
    insertAll l (s ++ t) = insertAll (insertAll l s) t := by
  simp [insertAll, List.foldl_append]

theorem mem_insertAll {α : Type} [DecidableEq α] (s : List α) :
    ∀ (l : List α) (y : α), y ∈ insertAll l s ↔ y ∈ l ∨ y ∈ s := by
  induction s with
  | nil => intro l y; simp [insertAll]
  | cons a s ih =>
      intro l y
      have : insertAll l (a :: s) = insertAll (insertAbsent l a) s := rfl
      rw [this, ih, mem_insertAbsent]
      constructor
      · rintro ((h | rfl) | h)
        · exact Or.inl h
        · exact Or.inr (List.mem_cons_self _ _)
        · exact Or.inr (List.mem_cons_of_mem _ h)
      · rintro (h | h)
        · exact Or.inl (Or.inl h)
        · rcases List.mem_cons.mp h with rfl | h
          · exact Or.inl (Or.inr rfl)
          · exact Or.inr h

theorem nodup_insertAll {α : Type} [DecidableEq α] (s : List α) :
    ∀ (l : List α), l.Nodup → (insertAll l s).Nodup := by
  induction s with
  | nil => intro l hl; simpa [insertAll] using hl
  | cons a s ih =>
      intro l hl
      have : insertAll l (a :: s) = insertAll (insertAbsent l a) s := rfl
      rw [this]
      exact ih _ (nodup_insertAbsent _ _ hl)

/-- Two duplicate-free lists with the same members have the same length. -/
theorem length_eq_of_nodup_of_mem_iff {α : Type} [DecidableEq α]
    {l₁ l₂ : List α} (h₁ : l₁.Nodup) (h₂ : l₂.Nodup)
    (h : ∀ a, a ∈ l₁ ↔ a ∈ l₂) : l₁.length = l₂.length :=
  ((List.perm_ext_iff_of_nodup h₁ h₂).mpr h).length_eq

/-! ### Graph builder (`create_graph_from_csv`, `src/app.py` lines 16-31) -/

/-- The Python `str.strip()` method: drop whitespace from both ends of the string
(an executable model of `String.trim`, phrased over the character list so
that concrete instances evaluate in the kernel). -/
def strip (s : String) : String :=
  String.mk (((s.data.dropWhile Char.isWhitespace).reverse.dropWhile Char.isWhitespace).reverse)

/-- One input row, already mapped to the `node_1`, `edge`, `node_2` roles. -/
structure Row where
  node1 : String
  edge : String
  node2 : String
deriving DecidableEq

/-- The `networkx.Graph` state used by the app: node ids in insertion order,
one undirected edge per unordered endpoint pair carrying a `title` label, and
a node-id → color attribute map written later by the community partitioner. -/
structure Graph where
  nodes : List String
  edges : List (String × String × String)
  colors : List (String × String)
deriving DecidableEq

def emptyGraph : Graph := ⟨[], [], []⟩

/-- `G.add_node(n)`: a no-op when the id is already a node. -/
def addNode (G : Graph) (n : String) : Graph :=
  if n ∈ G.nodes then G else { G with nodes := G.nodes ++ [n] }

/-- Whether a stored edge joins the same unordered endpoint pair as `(u, v)`. -/
def sameEdge (u v : String) (e : String × String × String) : Bool :=
  (e.1 == u && e.2.1 == v) || (e.1 == v && e.2.1 == u)

/-- Overwrite the label of `e` when it joins the unordered pair `(u, v)`. -/
def setEdgeLabel (u v lab : String) (e : String × String × String) : String × String × String :=
  if sameEdge u v e then (e.1, e.2.1, lab) else e

/-- `G.add_edge(u, v, title=lab)`: `networkx.Graph` keeps a single edge per
unordered pair, overwriting the attributes when the edge already exists. -/
def addEdge (G : Graph) (u v lab : String) : Graph :=
  if (addNode (addNode G u) v).edges.any (sameEdge u v) then
    { (addNode (addNode G u) v) with edges := (addNode (addNode G u) v).edges.map (setEdgeLabel u v lab) }
  else
    { (addNode (addNode G u) v) with edges := (addNode (addNode G u) v).edges ++ [(u, v, lab)] }

/-- The loop body of `create_graph_from_csv`: strip all three fields, add the
two endpoint nodes, add the labelled edge. -/
def addRow (G : Graph) (r : Row) : Graph :=
  addEdge (addNode (addNode G (strip r.node1)) (strip r.node2))
    (strip r.node1) (strip r.node2) (strip r.edge)

/-- `create_graph_from_csv` over the normalized triple list. -/
def create_graph_from_csv (rows : List Row) : Graph :=
  rows.foldl addRow emptyGraph

/-- The stream of trimmed endpoint strings of a triple list, in row order. -/
def endpointStream (rows : List Row) : List String :=
  rows.flatMap fun r => [(strip r.node1), (strip r.node2)]

theorem edges_addNode (G : Graph) (n : String) : (addNode G n).edges = G.edges := by
  unfold addNode; split <;> rfl

theorem colors_addNode (G : Graph) (n : String) : (addNode G n).colors = G.colors := by
  unfold addNode; split <;> rfl

theorem nodes_addNode (G : Graph) (n : String) :
    (addNode G n).nodes = insertAbsent G.nodes n := by
  unfold addNode insertAbsent; split <;> rfl

theorem nodes_addEdge (G : Graph) (u v lab : String) :
    (addEdge G u v lab).nodes = (addNode (addNode G u) v).nodes := by
  unfold addEdge; split <;> rfl

theorem mem_self_insertAbsent {α : Type} [DecidableEq α] (l : List α) (x : α) :
    x ∈ insertAbsent l x :=
  (mem_insertAbsent l x x).mpr (Or.inr rfl)

theorem nodes_addRow (G : Graph) (r : Row) :
    (addRow G r).nodes = insertAbsent (insertAbsent G.nodes (strip r.node1)) (strip r.node2) := by
  unfold addRow
  rw [nodes_addEdge, nodes_addNode, nodes_addNode, nodes_addNode, nodes_addNode]
  have h1 : (strip r.node1) ∈ insertAbsent (insertAbsent G.nodes (strip r.node1)) (strip r.node2) :=
    (mem_insertAbsent _ _ _).mpr (Or.inl (mem_self_insertAbsent _ _))
  have h2 : (strip r.node2) ∈ insertAbsent (insertAbsent G.nodes (strip r.node1)) (strip r.node2) :=
    mem_self_insertAbsent _ _
  rw [insertAbsent_of_mem h1, insertAbsent_of_mem h2]

theorem nodes_foldl_addRow (rows : List Row) :
    ∀ G : Graph, (rows.foldl addRow G).nodes = insertAll G.nodes (endpointStream rows) := by
  induction rows with
  | nil => intro G; simp [endpointStream, insertAll]
  | cons r rs ih =>
      intro G
      have hstream : endpointStream (r :: rs)
          = [(strip r.node1), (strip r.node2)] ++ endpointStream rs := by
        simp [endpointStream]
      rw [List.foldl_cons, ih, hstream, insertAll_append, nodes_addRow]
      rfl

theorem nodes_create (rows : List Row) :
    (create_graph_from_csv rows).nodes = insertAll [] (endpointStream rows) := by
  unfold create_graph_from_csv
  rw [nodes_foldl_addRow]
  rfl

theorem length_insertAll_nil_eq_dedup {α : Type} [DecidableEq α] (s : List α) :
    (insertAll ([] : List α) s).length = s.dedup.length := by
  refine length_eq_of_nodup_of_mem_iff (nodup_insertAll s [] List.nodup_nil)
    s.nodup_dedup fun a => ?_
  rw [mem_insertAll, List.mem_dedup]
  simp

/-- The unordered pair of endpoints of a stored edge. -/
def edgeKey (e : String × String × String) : Sym2 String := s(e.1, e.2.1)

/-- The unordered pairs of endpoints of the stored edges, in storage order. -/
def pairsOf (G : Graph) : List (Sym2 String) := G.edges.map edgeKey

/-- The unordered pair of trimmed endpoints of an input row. -/
def rowKey (r : Row) : Sym2 String := s((strip r.node1), (strip r.node2))

theorem sameEdge_true_iff (u v : String) (e : String × String × String) :
    sameEdge u v e = true ↔ s(u, v) = edgeKey e := by
  unfold sameEdge edgeKey
  rw [Sym2.eq_iff]
  simp only [Bool.or_eq_true, Bool.and_eq_true, beq_iff_eq]
  constructor
  · rintro (⟨rfl, rfl⟩ | ⟨rfl, rfl⟩)
    · exact Or.inl ⟨rfl, rfl⟩
    · exact Or.inr ⟨rfl, rfl⟩
  · rintro (⟨rfl, rfl⟩ | ⟨rfl, rfl⟩)
    · exact Or.inl ⟨rfl, rfl⟩
    · exact Or.inr ⟨rfl, rfl⟩

theorem edgeKey_setEdgeLabel (u v lab : String) (e : String × String × String) :
    edgeKey (setEdgeLabel u v lab e) = edgeKey e := by
  unfold setEdgeLabel
  split
  · rfl
  · rfl

theorem pairsOf_addNode (G : Graph) (n : String) : pairsOf (addNode G n) = pairsOf G := by
  unfold pairsOf
  rw [edges_addNode]

theorem pairsOf_addEdge (G : Graph) (u v lab : String) :
    pairsOf (addEdge G u v lab) = insertAbsent (pairsOf G) s(u, v) := by
  unfold addEdge
  by_cases h : G.edges.any (sameEdge u v) = true
  · have hmem : s(u, v) ∈ pairsOf G := by
      rcases List.any_eq_true.mp h with ⟨e, he, hse⟩
      exact (sameEdge_true_iff u v e).mp hse ▸ List.mem_map_of_mem edgeKey he
    rw [if_pos (by rw [edges_addNode, edges_addNode]; exact h)]
    show ((addNode (addNode G u) v).edges.map (setEdgeLabel u v lab)).map edgeKey = _
    rw [edges_addNode, edges_addNode, insertAbsent_of_mem hmem, List.map_map]
    unfold pairsOf
    exact List.map_congr_left fun e _ => edgeKey_setEdgeLabel u v lab e
  · have hmem : s(u, v) ∉ pairsOf G := by
      intro hc
      rcases List.mem_map.mp hc with ⟨e, he, hke⟩
      exact h (List.any_eq_true.mpr ⟨e, he, (sameEdge_true_iff u v e).mpr hke.symm⟩)
    rw [if_neg (by rw [edges_addNode, edges_addNode]; exact h)]
    show ((addNode (addNode G u) v).edges ++ [(u, v, lab)]).map edgeKey = _
    rw [edges_addNode, edges_addNode, List.map_append]
    unfold insertAbsent
    rw [if_neg hmem]
    rfl

theorem pairsOf_addRow (G : Graph) (r : Row) :
    pairsOf (addRow G r) = insertAbsent (pairsOf G) (rowKey r) := by
  unfold addRow
  rw [pairsOf_addEdge, pairsOf_addNode, pairsOf_addNode]
  rfl

theorem pairsOf_foldl_addRow (rows : List Row) :
    ∀ G : Graph, pairsOf (rows.foldl addRow G) = insertAll (pairsOf G) (rows.map rowKey) := by
  induction rows with
  | nil => intro G; simp [insertAll]
  | cons r rs ih =>
      intro G
      rw [List.foldl_cons, ih, List.map_cons]
      have : insertAll (pairsOf G) (rowKey r :: rs.map rowKey)
          = insertAll (insertAbsent (pairsOf G) (rowKey r)) (rs.map rowKey) := rfl
      rw [this, pairsOf_addRow]

theorem pairsOf_create (rows : List Row) :
    pairsOf (create_graph_from_csv rows) = insertAll [] (rows.map rowKey) := by
  unfold create_graph_from_csv
  rw [pairsOf_foldl_addRow]
  rfl

/-! ### Claim C2 (corrected): parallel edges are merged, not kept distinct -/

/-- Two rows with the same endpoints but different edge labels. -/
def parallelRows : List Row := [⟨"a", "x", "b"⟩, ⟨"a", "y", "b"⟩]

/-- C2, counterexample: the input `[("a","x","b"), ("a","y","b")]` has two rows
of distinct `(endpoints, label)` content, yet the built graph stores a single
edge — `networkx.Graph` merges parallel edges, so the claimed edge count of 2
is refuted at this input. -/
theorem C2_distinct_parallel_edges_counterexample :
    parallelRows.dedup.length = 2
      ∧ (create_graph_from_csv parallelRows).edges.length = 1
      ∧ ¬ (create_graph_from_csv parallelRows).edges.length = 2 := by
  refine ⟨by decide, by decide, by decide⟩

/-- C2, amended: two triples sharing the same unordered pair of trimmed
endpoints are merged into a single edge even when their labels differ (the
label of the stored edge is overwritten), so the edge count of the built graph
equals the number of distinct unordered trimmed endpoint pairs among the input
rows — not the number of rows with distinct `(endpoints, label)` content. -/
theorem C2_edge_count_is_distinct_endpoint_pairs (rows : List Row) :
    (create_graph_from_csv rows).edges.length = ((rows.map rowKey).dedup).length := by
  have h1 : (create_graph_from_csv rows).edges.length
      = (pairsOf (create_graph_from_csv rows)).length := (List.length_map _ _).symm
  rw [h1, pairsOf_create, length_insertAll_nil_eq_dedup]

/-! ### Claim C6 (confirmed): node count and idempotent node insertion -/

/-- C6: the node count of the built graph equals the number of unique trimmed
endpoint strings of the input, and re-supplying a triple whose trimmed
endpoints already exist as nodes never increases the node count. -/
theorem C6_node_count_unique_endpoints :
    (∀ rows : List Row,
        (create_graph_from_csv rows).nodes.length = (endpointStream rows).dedup.length)
      ∧ (∀ (rows : List Row) (r : Row),
          strip r.node1 ∈ (create_graph_from_csv rows).nodes →
          strip r.node2 ∈ (create_graph_from_csv rows).nodes →
          (create_graph_from_csv (rows ++ [r])).nodes.length
            = (create_graph_from_csv rows).nodes.length) := by
  constructor
  · intro rows
    rw [nodes_create]
    exact length_insertAll_nil_eq_dedup _
  · intro rows r h1 h2
    have hsplit : create_graph_from_csv (rows ++ [r]) = addRow (create_graph_from_csv rows) r := by
      unfold create_graph_from_csv
      rw [List.foldl_append]
      rfl
    rw [hsplit, nodes_addRow, insertAbsent_of_mem h1, insertAbsent_of_mem h2]

/-- C6, witness: for the single triple `("A","likes","B")` re-supplied as
`("A","knows","B")`, both trimmed endpoints are already nodes and the node
count stays at 2. -/
theorem C6_node_count_unique_endpoints_witness :
    (create_graph_from_csv ([⟨"A", "likes", "B"⟩] ++ [⟨"A", "knows", "B"⟩])).nodes.length
      = (create_graph_from_csv [⟨"A", "likes", "B"⟩]).nodes.length :=
  C6_node_count_unique_endpoints.2 [⟨"A", "likes", "B"⟩] ⟨"A", "knows", "B"⟩
    (by decide) (by decide)

/-! ### Community partitioner (`color_communities_girvan_newman`, `src/app.py` lines 33-53)

The `networkx` function `girvan_newman` is library code: it is embedded with its
documented behaviour (yield the connected components once the graph has no
edges, otherwise remove most-valuable edges until the component count rises),
with the `most_valuable_edge` choice function — edge-betweenness argmax by
default — kept as an explicit deterministic parameter, exactly as in the
signature of the library.  The seaborn `hls` palette is likewise a
deterministic parameter `palette : Nat → List String`.  The ambient `random`
module is modelled as an explicit shuffle function `rng`: the agglomerative
(Louvain) path calls `random.shuffle(palette)`, while on the divisive path
the shuffle is commented out in the source. -/

/-- Neighbours of `n` through the stored undirected edges. -/
def neighbors (G : Graph) (n : String) : List String :=
  G.edges.foldr
    (fun e acc => if e.1 == n then e.2.1 :: acc else if e.2.1 == n then e.1 :: acc else acc) []

/-- Fuelled breadth-first reachability. -/
def bfsReach (G : Graph) : Nat → List String → List String → List String
  | 0, _, visited => visited
  | _ + 1, [], visited => visited
  | fuel + 1, x :: frontier, visited =>
      if x ∈ visited then bfsReach G fuel frontier visited
      else bfsReach G fuel (frontier ++ neighbors G x) (visited ++ [x])

/-- Enough fuel to exhaust any frontier of `G`. -/
def bfsFuel (G : Graph) : Nat :=
  (G.nodes.length + 1) * (2 * G.edges.length + 1) + 1

def componentOf (G : Graph) (n : String) : List String :=
  bfsReach G (bfsFuel G) [n] []

def componentsAux (G : Graph) : List String → List String → List (List String)
  | [], _ => []
  | n :: rest, seen =>
      if n ∈ seen then componentsAux G rest seen
      else componentOf G n :: componentsAux G rest (seen ++ componentOf G n)

/-- `nx.connected_components`, components listed in node insertion order. -/
def connectedComponents (G : Graph) : List (List String) :=
  componentsAux G G.nodes []

/-- Drop self loops, as `girvan_newman` does on its working copy. -/
def removeSelfLoops (G : Graph) : Graph :=
  { G with edges := G.edges.filter fun e => !(e.1 == e.2.1) }

def removeEdgePair (G : Graph) (u v : String) : Graph :=
  { G with edges := G.edges.filter fun e => !(sameEdge u v e) }

/-- `_without_most_central_edges`: repeatedly remove the edge chosen by
`mve` until the number of connected components exceeds `base`. -/
def withoutMostCentral (mve : Graph → Option (String × String × String)) :
    Nat → Graph → Nat → List (List String)
  | 0, G, _ => connectedComponents G
  | fuel + 1, G, base =>
      if base < (connectedComponents G).length then connectedComponents G
      else
        match mve G with
        | none => connectedComponents G
        | some e => withoutMostCentral mve fuel (removeEdgePair G e.1 e.2.1) base

/-- The first partition level yielded by `nx_community.girvan_newman`. -/
def girvanNewmanFirst (mve : Graph → Option (String × String × String)) (G : Graph) :
    List (List String) :=
  if G.edges.length = 0 then connectedComponents G
  else
    withoutMostCentral mve ((removeSelfLoops G).edges.length + 1) (removeSelfLoops G)
      (connectedComponents (removeSelfLoops G)).length

/-- Stable insertion into a list sorted by `le`. -/
def insertLeBy {α : Type} (le : α → α → Bool) (x : α) : List α → List α
  | [] => [x]
  | y :: ys => if le x y then x :: y :: ys else y :: insertLeBy le x ys

/-- The Python `sorted` builtin (as insertion sort over the comparator `le`). -/
def sortLeBy {α : Type} (le : α → α → Bool) (l : List α) : List α :=
  l.foldr (insertLeBy le) []

def strLe (a b : String) : Bool := decide (a ≤ b)

/-- The Python lexicographic comparison of string lists. -/
def strListLe : List String → List String → Bool
  | [], _ => true
  | _ :: _, [] => false
  | x :: xs, y :: ys => if x < y then true else if y < x then false else strListLe xs ys

/-- `sorted(map(sorted, top_level_communities))`. -/
def sortedCommunities (cs : List (List String)) : List (List String) :=
  sortLeBy strListLe (cs.map (sortLeBy strLe))

/-- The deterministically ordered community list of the divisive strategy. -/
def gnCommunities (mve : Graph → Option (String × String × String)) (G : Graph) :
    List (List String) :=
  sortedCommunities (girvanNewmanFirst mve G)

/-- `G.nodes[n]["color"] = c`: write the color attribute of one node. -/
def setColor (G : Graph) (n c : String) : Graph :=
  { G with colors := (G.colors.filter fun p => !(p.1 == n)) ++ [(n, c)] }

/-- Assign `col` to every node of the community `comm`. -/
def colorCommunity (g : Graph) (comm : List String) (col : String) : Graph :=
  comm.foldl (fun g2 n => setColor g2 n col) g

/-- `color_communities_girvan_newman`: sort the first Girvan–Newman partition
level, draw one palette color per community, and write it onto every member
node.  The `random.shuffle(palette)` line is commented out in the source, so
the ambient shuffle `rng` is accepted but never consulted on this path. -/
def color_communities_girvan_newman (mve : Graph → Option (String × String × String))
    (palette : Nat → List String) (_rng : List String → List String) (G : Graph) : Graph :=
  ((gnCommunities mve G).zip (palette (gnCommunities mve G).length)).foldl
    (fun g p => colorCommunity g p.1 p.2) G

/-- `comm_dict.setdefault(comm_id, []).append(node)` over one partition entry. -/
def addToComm (acc : List (Nat × List String)) (p : String × Nat) : List (Nat × List String) :=
  if acc.any fun q => q.1 == p.2 then
    acc.map fun q => if q.1 == p.2 then (q.1, q.2 ++ [p.1]) else q
  else acc ++ [(p.2, [p.1])]

/-- `color_communities_louvain`: group the Louvain partition (an external
library call, kept as the parameter `part`) by community id, then shuffle the
palette through `rng` — this path does consult the ambient randomness. -/
def color_communities_louvain (part : Graph → List (String × Nat))
    (palette : Nat → List String) (rng : List String → List String) (G : Graph) : Graph :=
  ((((part G).foldl addToComm []).map fun q => q.2).zip
      (rng (palette (((part G).foldl addToComm []).map fun q => q.2).length))).foldl
    (fun g p => colorCommunity g p.1 p.2) G

/-! ### Claim C3 (confirmed): empty graph yields zero communities, no error -/

/-- C3: on the empty graph (no nodes, no edges) the divisive partitioner
computes zero communities and `color_communities_girvan_newman` returns the
graph unchanged; being a total function of the embedding, no error is raised,
for every choice of the most-valuable-edge function of the library, palette and
ambient shuffle. -/
theorem C3_empty_graph_zero_communities
    (mve : Graph → Option (String × String × String))
    (palette : Nat → List String) (rng : List String → List String) :
    gnCommunities mve emptyGraph = []
      ∧ color_communities_girvan_newman mve palette rng emptyGraph = emptyGraph := by
  constructor
  · rfl
  · rfl

/-! ### Claim C7 (confirmed): the divisive coloring is deterministic -/

/-- C7: the node-to-color mapping produced by the divisive (edge-betweenness)
path is deterministic — it depends only on the graph, the
deterministic most-valuable-edge function of the library and the deterministic palette.  Two
runs differing arbitrarily in the ambient shuffle state produce identical
output, because the palette shuffle is commented out on this path (communities
are ordered by sorted member lists). -/
theorem C7_divisive_coloring_deterministic
    (mve : Graph → Option (String × String × String))
    (palette : Nat → List String) (G : Graph)
    (rng₁ rng₂ : List String → List String) :
    color_communities_girvan_newman mve palette rng₁ G
      = color_communities_girvan_newman mve palette rng₂ G := rfl

/-- In contrast, the agglomerative (Louvain) path does consult the ambient
shuffle: two shuffle states can yield different node colors. -/
theorem louvain_coloring_depends_on_shuffle :
    ∃ (part : Graph → List (String × Nat)) (palette : Nat → List String)
      (rng₁ rng₂ : List String → List String) (G : Graph),
      color_communities_louvain part palette rng₁ G
        ≠ color_communities_louvain part palette rng₂ G := by
  refine ⟨fun _ => [("a", 0)], fun _ => ["red"], id, fun _ => ["blue"],
    ⟨["a"], [], []⟩, ?_⟩
  decide

/-! ### Selection overlay (`draw_graph_with_lasso_and_textbox`, `src/app.py` lines 307-526)

JavaScript numbers are modelled as rationals.  The vis-network node
`DataSet` is an external collaborator; per the Render Adapter
contract of the spec its style store is modelled per node as a fill color, an optional
border-color override (the displayed border falls back to a color derived by
darkening the fill when no override is present, which is what
`color: \x7bborder: undefined\x7d` restores) and a border width, with
`update` acting field-wise: omitted fields are left unchanged. -/

/-- A 2D point in overlay-local pixel coordinates. -/
structure Point where
  x : ℚ
  y : ℚ
deriving DecidableEq

/-- The crossing test of one polygon edge in `isInsidePolygon`:
`((yi>py)!=(yj>py)) && (px<(xj-xi)*(py-yi)/(yj-yi)+xi)` with `pc = poly[i]`
(current vertex) and `pp = poly[j]` (previous vertex). -/
def edgeCrosses (px py : ℚ) (pc pp : Point) : Bool :=
  (decide (pc.y > py) != decide (pp.y > py))
    && decide (px < (pp.x - pc.x) * (py - pc.y) / (pp.y - pc.y) + pc.x)

/-- The vertex pairs `(poly[i], poly[j])` visited by the loop
`for(let i=0, j=poly.length-1; i<poly.length; j=i++)`. -/
def edgePairs (poly : List Point) : List (Point × Point) :=
  match poly.getLast? with
  | none => []
  | some lastP => poly.zip (lastP :: poly.dropLast)

/-- `isInsidePolygon`: even-odd ray casting, toggling `inside` per crossing. -/
def isInsidePolygon (px py : ℚ) (poly : List Point) : Bool :=
  (edgePairs poly).foldl
    (fun inside e => if edgeCrosses px py e.1 e.2 then !inside else inside) false

/-- The modelled visual style of one rendered node. -/
structure NodeStyle where
  fill : String
  borderOverride : Option String
  borderWidth : Nat
deriving DecidableEq

/-- The vis-network node `DataSet`, viewed as a total style map. -/
def StyleStore : Type := String → NodeStyle

/-- Keep `old` when the update omits the field (`null` in the source). -/
def overrideWith {α : Type} (new : Option α) (old : α) : α :=
  match new with
  | some v => v
  | none => old

/-- `highlightNodes(nodeIDs, borderWidthVal, borderColorVal)`: per node, set
the border width when given, set the border-color override when given, and
touch nothing else (the update object never contains a fill). -/
def highlightNodes (ids : List String) (w : Option Nat) (c : Option String)
    (s : StyleStore) : StyleStore :=
  fun n =>
    if n ∈ ids then
      { fill := (s n).fill,
        borderOverride := overrideWith (c.map some) (s n).borderOverride,
        borderWidth := overrideWith w (s n).borderWidth }
    else s n

/-- `revertNodesToDefault(nodeIDs)`: border width 1 and
`color: \x7bborder: undefined\x7d`, i.e. clear the border-color override so the
renderer falls back to the border derived from the own fill of the node. -/
def revertNodesToDefault (ids : List String) (s : StyleStore) : StyleStore :=
  fun n =>
    if n ∈ ids then
      { fill := (s n).fill, borderOverride := none, borderWidth := 1 }
    else s n

/-- The border the renderer displays: the override if any, else the color
algorithmically darkened from the fill (`darken` is renderer-owned). -/
def displayedBorder (darken : String → String) (st : NodeStyle) : String :=
  st.borderOverride.getD (darken st.fill)

/-- The mutable state owned by the overlay script. -/
structure OverlayState where
  checked : Bool
  isDrawing : Bool
  lassoPoints : List Point
  selectedNodeIDs : List String
  oldGoldNodes : List String
  dragView : Bool
  zoomView : Bool
  dragNodes : Bool
  overlayPointerEventsAuto : Bool
  store : StyleStore
  log : List String

/-- The `lassoCheckbox` change handler: freeze or restore the renderer
interaction flags and flip the overlay pointer events.  It touches neither
`isDrawing`, nor `lassoPoints`, nor any node style. -/
def toggleLasso (defDragView defZoomView defDragNodes : Bool) (checkedNow : Bool)
    (st : OverlayState) : OverlayState :=
  if checkedNow then
    { st with
      checked := true, dragView := false, zoomView := false, dragNodes := false,
      overlayPointerEventsAuto := true, log := st.log ++ ["Lasso: ON"] }
  else
    { st with
      checked := false, dragView := defDragView, zoomView := defZoomView,
      dragNodes := defDragNodes, overlayPointerEventsAuto := false,
      log := st.log ++ ["Lasso: OFF"] }

/-- The overlay `mousedown` handler: while lasso mode is on, start drawing
with a fresh one-point polygon. -/
def mousedownStep (p : Point) (st : OverlayState) : OverlayState :=
  if st.checked then { st with isDrawing := true, lassoPoints := [p] } else st

/-- The overlay `mousemove` handler: while drawing, append the point. -/
def mousemoveStep (p : Point) (st : OverlayState) : OverlayState :=
  if st.isDrawing && st.checked then { st with lassoPoints := st.lassoPoints ++ [p] }
  else st

/-- The node ids whose overlay-local position lies inside the lasso polygon,
in the id iteration order of the renderer. -/
def newSelection (nodeIds : List String) (pos : String → Point) (st : OverlayState) :
    List String :=
  nodeIds.filter fun nid => isInsidePolygon (pos nid).x (pos nid).y st.lassoPoints

/-- The overlay `mouseup` handler: when drawing in lasso mode, stop drawing,
revert the previous selection, select the nodes inside the polygon, give them
border width 5 (border color untouched), and clear the polygon.  When lasso
mode is off, or no draw is in progress, nothing happens. -/
def mouseupStep (nodeIds : List String) (pos : String → Point) (st : OverlayState) :
    OverlayState :=
  if st.isDrawing && st.checked then
    { st with
      isDrawing := false,
      store := highlightNodes (newSelection nodeIds pos st) (some 5) none
        (if 0 < st.selectedNodeIDs.length then
          revertNodesToDefault st.selectedNodeIDs st.store
        else st.store),
      selectedNodeIDs := newSelection nodeIds pos st,
      lassoPoints := [],
      log := st.log ++
        ["New lasso selection: " ++ String.intercalate ", " (newSelection nodeIds pos st)] }
  else st

/-- The `submitButton` click handler: a blank question is a no-op; otherwise
revert the previous gold subset, take the first `floor(count/2)` of the
current selection, give them a gold border (width untouched), and record them
as the new gold subset. -/
def submitStep (q : String) (st : OverlayState) : OverlayState :=
  if strip q = "" then st
  else
    { st with
      store := highlightNodes (st.selectedNodeIDs.take (st.selectedNodeIDs.length / 2))
        none (some "gold") (revertNodesToDefault st.oldGoldNodes st.store),
      oldGoldNodes := st.selectedNodeIDs.take (st.selectedNodeIDs.length / 2),
      log := st.log ++
        ["Response to question " ++ q ++ " on selected ["
          ++ String.intercalate ", " st.selectedNodeIDs ++ "]"] }

/-! ### Claims C5 and C10: the ray-casting containment test -/

theorem foldl_toggle_parity {α : Type} (p : α → Bool) (l : List α) :
    ∀ b : Bool,
      l.foldl (fun inside e => if p e then !inside else inside) b
        = Bool.xor b (decide (l.countP p % 2 = 1)) := by
  induction l with
  | nil => intro b; simp
  | cons a l ih =>
      intro b
      rw [List.foldl_cons, ih, List.countP_cons]
      by_cases hp : p a = true
      · rw [if_pos hp]
        simp only [hp, if_true]
        rcases Nat.even_or_odd (l.countP p) with he | ho
        · have h0 : l.countP p % 2 = 0 := Nat.even_iff.mp he
          have h1 : (l.countP p + 1) % 2 = 1 := by omega
          rw [h0, h1]
          simp
        · have h0 : l.countP p % 2 = 1 := Nat.odd_iff.mp ho
          have h1 : (l.countP p + 1) % 2 = 0 := by omega
          rw [h0, h1]
          simp
      · have hp' : p a = false := Bool.eq_false_iff.mpr hp
        rw [if_neg hp]
        simp [hp']

/-- The square polygon of the point-in-polygon test of the spec. -/
def squarePoly : List Point := [⟨0, 0⟩, ⟨0, 10⟩, ⟨10, 10⟩, ⟨10, 0⟩]

/-- C5: `isInsidePolygon` implements the even-odd ray-casting rule — a point
is classified inside exactly when an odd number of polygon edges pass the
crossing test (whose strict vertical-span guard `(yi>py)!=(yj>py)` keeps
shared vertices from being double counted); on the square
`[(0,0),(0,10),(10,10),(10,0)]` the point `(5,5)` is inside and `(15,5)` is
outside. -/
theorem C5_even_odd_ray_casting :
    (∀ (px py : ℚ) (poly : List Point),
        (isInsidePolygon px py poly = true
          ↔ (edgePairs poly).countP (fun e => edgeCrosses px py e.1 e.2) % 2 = 1))
      ∧ isInsidePolygon 5 5 squarePoly = true
      ∧ isInsidePolygon 15 5 squarePoly = false := by
  refine ⟨fun px py poly => ?_,
    by norm_num [isInsidePolygon, edgePairs, squarePoly, edgeCrosses],
    by norm_num [isInsidePolygon, edgePairs, squarePoly, edgeCrosses]⟩
  unfold isInsidePolygon
  rw [foldl_toggle_parity (fun e => edgeCrosses px py e.1 e.2) (edgePairs poly) false]
  simp

/-- C10: the containment test is total and never divides by zero — whenever
the strict vertical-span guard of the crossing test holds, the two endpoint
`y` coordinates differ (so the divisor `yj - yi` is nonzero); a polygon of 0
or 1 points classifies every query point as outside, so a degenerate lasso
selects no node. -/
theorem C10_containment_total_no_div_by_zero :
    (∀ (py : ℚ) (pc pp : Point),
        (decide (pc.y > py) != decide (pp.y > py)) = true → pc.y ≠ pp.y)
      ∧ (∀ px py : ℚ, isInsidePolygon px py [] = false)
      ∧ (∀ (px py : ℚ) (q : Point), isInsidePolygon px py [q] = false)
      ∧ (∀ (nodeIds : List String) (pos : String → Point) (st : OverlayState),
          st.lassoPoints.length ≤ 1 → newSelection nodeIds pos st = []) := by
  refine ⟨?_, ?_, ?_, ?_⟩
  · intro py pc pp h heq
    rw [heq] at h
    simp at h
  · intro px py
    rfl
  · intro px py q
    simp [isInsidePolygon, edgePairs, edgeCrosses]
  · intro nodeIds pos st hlen
    unfold newSelection
    rw [List.filter_eq_nil_iff]
    intro nid _
    match hlp : st.lassoPoints, hlen with
    | [], _ => simp [isInsidePolygon, edgePairs]
    | [q], _ => simp [isInsidePolygon, edgePairs, edgeCrosses]

/-- C10, witness: at `py = 0` with endpoint heights 1 and 0 the guard holds
and the heights indeed differ; the empty polygon classifies `(3, 4)` outside;
a mid-draw one-point lasso state selects none of the two nodes. -/
theorem C10_containment_total_no_div_by_zero_witness :
    ((Point.mk 0 1).y ≠ (Point.mk 0 0).y)
      ∧ isInsidePolygon 3 4 [] = false
      ∧ newSelection ["a", "b"] (fun _ => ⟨0, 0⟩)
          { checked := true, isDrawing := true, lassoPoints := [⟨1, 2⟩],
            selectedNodeIDs := [], oldGoldNodes := [], dragView := true,
            zoomView := true, dragNodes := true, overlayPointerEventsAuto := true,
            store := fun _ => ⟨"#97c2fc", none, 1⟩, log := [] } = [] :=
  ⟨C10_containment_total_no_div_by_zero.1 0 ⟨0, 1⟩ ⟨0, 0⟩
      (by rw [show (Point.mk 0 1).y = 1 from rfl, show (Point.mk 0 0).y = 0 from rfl,
        decide_eq_true (one_pos : (1:ℚ) > 0), decide_eq_false (lt_irrefl (0:ℚ))]; rfl),
    C10_containment_total_no_div_by_zero.2.1 3 4,
    C10_containment_total_no_div_by_zero.2.2.2 ["a", "b"] (fun _ => ⟨0, 0⟩) _
      (by simp)⟩

/-! ### Claim C1: original style recoverable, revert is exact -/

/-- The only styling mutations the overlay script ever performs: calls to
`highlightNodes` and to `revertNodesToDefault`. -/
inductive StyleOp where
  | highlight (ids : List String) (w : Option Nat) (c : Option String)
  | revert (ids : List String)

def applyOp (s : StyleStore) : StyleOp → StyleStore
  | StyleOp.highlight ids w c => highlightNodes ids w c s
  | StyleOp.revert ids => revertNodesToDefault ids s

def applyOps (s : StyleStore) (ops : List StyleOp) : StyleStore :=
  ops.foldl applyOp s

theorem fill_highlightNodes (ids : List String) (w : Option Nat) (c : Option String)
    (s : StyleStore) (n : String) : (highlightNodes ids w c s n).fill = (s n).fill := by
  unfold highlightNodes
  split <;> rfl

theorem fill_revertNodesToDefault (ids : List String) (s : StyleStore) (n : String) :
    (revertNodesToDefault ids s n).fill = (s n).fill := by
  unfold revertNodesToDefault
  split <;> rfl

theorem fill_applyOp (op : StyleOp) (s : StyleStore) (n : String) :
    (applyOp s op n).fill = (s n).fill := by
  cases op with
  | highlight ids w c => exact fill_highlightNodes ids w c s n
  | revert ids => exact fill_revertNodesToDefault ids s n

/-- No overlay styling operation ever changes the fill of a node: the fill present
before the first styling mutation is implicitly recorded by never being
touched. -/
theorem fill_applyOps (ops : List StyleOp) :
    ∀ (s : StyleStore) (n : String), (applyOps s ops n).fill = (s n).fill := by
  induction ops with
  | nil => intro s n; rfl
  | cons op ops ih =>
      intro s n
      have : applyOps s (op :: ops) = applyOps (applyOp s op) ops := rfl
      rw [this, ih, fill_applyOp]

theorem revert_mem (ids : List String) (s : StyleStore) (n : String) (h : n ∈ ids) :
    revertNodesToDefault ids s n
      = { fill := (s n).fill, borderOverride := none, borderWidth := 1 } := by
  unfold revertNodesToDefault
  rw [if_pos h]

/-- C1: starting from the pre-highlight store `s₀` (fill as assigned by the
partitioner, no border override, width 1), after ANY sequence of overlay
styling operations, reverting a list of node ids restores, for each id in the
list, exactly its original fill together with the border the renderer derives
by darkening that fill, and border width 1 — never an arbitrary default. -/
theorem C1_revert_restores_original_style
    (darken : String → String) (s₀ : StyleStore) (ops : List StyleOp)
    (l : List String) (n : String) (h : n ∈ l) :
    revertNodesToDefault l (applyOps s₀ ops) n
        = { fill := (s₀ n).fill, borderOverride := none, borderWidth := 1 }
      ∧ displayedBorder darken (revertNodesToDefault l (applyOps s₀ ops) n)
        = darken ((s₀ n).fill) := by
  have hrev := revert_mem l (applyOps s₀ ops) n h
  rw [hrev, fill_applyOps]
  exact ⟨rfl, rfl⟩

/-- The pre-highlight style store of the C1 witness scenario. -/
def witnessStore : StyleStore := fun _ => ⟨"#ff0000", none, 1⟩

/-- C1, witness: after a width-5 selection highlight and a gold border
highlight of node `a`, reverting `a` restores fill `#ff0000`, a border
darkened from `#ff0000` and width 1. -/
theorem C1_revert_restores_original_style_witness :
    revertNodesToDefault ["a"]
        (applyOps witnessStore
          [StyleOp.highlight ["a"] (some 5) none,
            StyleOp.highlight ["a"] none (some "gold")]) "a"
        = { fill := "#ff0000", borderOverride := none, borderWidth := 1 }
      ∧ displayedBorder (fun c => c) (revertNodesToDefault ["a"]
          (applyOps witnessStore
            [StyleOp.highlight ["a"] (some 5) none,
              StyleOp.highlight ["a"] none (some "gold")]) "a")
        = "#ff0000" :=
  C1_revert_restores_original_style (fun c => c) witnessStore
    [StyleOp.highlight ["a"] (some 5) none, StyleOp.highlight ["a"] none (some "gold")]
    ["a"] "a" (by decide)

/-! ### Claim C4: submit highlights the first `floor(n/2)` selected nodes -/

/-- C4: submitting a non-blank query (blank meaning empty after stripping,
per the whitespace policy) records as the highlighted subset exactly the
first `floor(count/2)` members of the current `selectedNodeIDs`, in the order
the lasso finalize step produced them: the subset has size `count / 2` (so
sizes 0, 1, 2, 5 give 0, 0, 1, 2), every member of it carries the gold border
override, and no other node gains one (previous gold nodes are reverted). -/
theorem C4_submit_highlights_first_half (st : OverlayState) (q : String)
    (hq : strip q ≠ "") :
    (submitStep q st).oldGoldNodes
        = st.selectedNodeIDs.take (st.selectedNodeIDs.length / 2)
      ∧ (submitStep q st).oldGoldNodes.length = st.selectedNodeIDs.length / 2
      ∧ (∀ n, n ∈ (submitStep q st).oldGoldNodes →
          ((submitStep q st).store n).borderOverride = some "gold")
      ∧ (∀ n, n ∉ (submitStep q st).oldGoldNodes →
          ((submitStep q st).store n).borderOverride
            = if n ∈ st.oldGoldNodes then none else (st.store n).borderOverride) := by
  unfold submitStep
  rw [if_neg hq]
  refine ⟨rfl, ?_, ?_, ?_⟩
  · show (st.selectedNodeIDs.take (st.selectedNodeIDs.length / 2)).length = _
    rw [List.length_take]
    exact min_eq_left (Nat.div_le_self _ _)
  · intro n hn
    show (highlightNodes _ none (some "gold") _ n).borderOverride = some "gold"
    unfold highlightNodes
    rw [if_pos hn]
    rfl
  · intro n hn
    show (highlightNodes _ none (some "gold")
      (revertNodesToDefault st.oldGoldNodes st.store) n).borderOverride = _
    unfold highlightNodes
    rw [if_neg hn]
    unfold revertNodesToDefault
    by_cases hg : n ∈ st.oldGoldNodes
    · rw [if_pos hg, if_pos hg]
    · rw [if_neg hg, if_neg hg]

/-- The overlay state of the C4 witness: five selected nodes, nothing gold. -/
def submitState : OverlayState :=
  { checked := true, isDrawing := false, lassoPoints := [],
    selectedNodeIDs := ["a", "b", "c", "d", "e"], oldGoldNodes := [],
    dragView := false, zoomView := false, dragNodes := false,
    overlayPointerEventsAuto := true, store := fun _ => ⟨"#97c2fc", none, 5⟩,
    log := [] }

/-- C4, witness: with five selected nodes, submitting `"hi"` records the
two-element subset `["a", "b"]` and gives `a` the gold border override. -/
theorem C4_submit_highlights_first_half_witness :
    (submitStep "hi" submitState).oldGoldNodes.length = 2
      ∧ (submitStep "hi" submitState).oldGoldNodes = ["a", "b"]
      ∧ ((submitStep "hi" submitState).store "a").borderOverride = some "gold" :=
  ⟨(C4_submit_highlights_first_half submitState "hi" (by decide)).2.1,
    (C4_submit_highlights_first_half submitState "hi" (by decide)).1,
    (C4_submit_highlights_first_half submitState "hi" (by decide)).2.2.1 "a" (by decide)⟩

/-! ### Claim C9: selection and query styling touch only border attributes -/

/-- C9: neither the lasso finalize step nor the query submission ever changes
the fill of any node; the width-only highlight call of the finalize step (`width 5,
color null`) leaves border overrides untouched, the color-only highlight call
of the submit step (`width null, gold`) leaves border widths untouched, and a
newly selected node ends the finalize step with border width 5. -/
theorem C9_styling_is_border_only
    (nodeIds : List String) (pos : String → Point) (st : OverlayState)
    (q : String) (n : String) :
    ((mouseupStep nodeIds pos st).store n).fill = (st.store n).fill
      ∧ ((submitStep q st).store n).fill = (st.store n).fill
      ∧ (∀ (ids : List String) (w : Nat) (s : StyleStore) (m : String),
          (highlightNodes ids (some w) none s m).borderOverride = (s m).borderOverride
            ∧ (highlightNodes ids (some w) none s m).fill = (s m).fill)
      ∧ (∀ (ids : List String) (c : String) (s : StyleStore) (m : String),
          (highlightNodes ids none (some c) s m).borderWidth = (s m).borderWidth
            ∧ (highlightNodes ids none (some c) s m).fill = (s m).fill)
      ∧ (st.isDrawing = true → st.checked = true → n ∈ newSelection nodeIds pos st →
          ((mouseupStep nodeIds pos st).store n).borderWidth = 5) := by
  refine ⟨?_, ?_, ?_, ?_, ?_⟩
  · unfold mouseupStep
    split
    · show (highlightNodes (newSelection nodeIds pos st) (some 5) none
        (if 0 < st.selectedNodeIDs.length then
          revertNodesToDefault st.selectedNodeIDs st.store
        else st.store) n).fill = (st.store n).fill
      rw [fill_highlightNodes]
      split
      · rw [fill_revertNodesToDefault]
      · rfl
    · rfl
  · unfold submitStep
    split
    · rfl
    · show (highlightNodes (st.selectedNodeIDs.take (st.selectedNodeIDs.length / 2))
        none (some "gold") (revertNodesToDefault st.oldGoldNodes st.store) n).fill
          = (st.store n).fill
      rw [fill_highlightNodes, fill_revertNodesToDefault]
  · intro ids w s m
    constructor
    · unfold highlightNodes
      split <;> rfl
    · exact fill_highlightNodes ids (some w) none s m
  · intro ids c s m
    constructor
    · unfold highlightNodes
      split <;> rfl
    · exact fill_highlightNodes ids none (some c) s m
  · intro h1 h2 hmem
    unfold mouseupStep
    rw [h1, h2, Bool.true_and, if_pos rfl]
    show (highlightNodes (newSelection nodeIds pos st) (some 5) none
      (if 0 < st.selectedNodeIDs.length then
        revertNodesToDefault st.selectedNodeIDs st.store
      else st.store) n).borderWidth = 5
    unfold highlightNodes
    rw [if_pos hmem]
    rfl

/-- The mid-draw overlay state of the C9 witness: lasso mode on, drawing, the
unit square as polygon, nothing yet selected. -/
def lassoState : OverlayState :=
  { checked := true, isDrawing := true,
    lassoPoints := [⟨0, 0⟩, ⟨0, 1⟩, ⟨1, 1⟩, ⟨1, 0⟩],
    selectedNodeIDs := [], oldGoldNodes := [], dragView := false,
    zoomView := false, dragNodes := false, overlayPointerEventsAuto := true,
    store := fun _ => ⟨"#97c2fc", none, 1⟩, log := [] }

/-- C9, witness: finalizing the unit-square lasso around node `a` (placed at
the origin) gives `a` border width 5 while its fill stays what it was. -/
theorem C9_styling_is_border_only_witness :
    ((mouseupStep ["a"] (fun _ => ⟨0, 0⟩) lassoState).store "a").borderWidth = 5
      ∧ ((mouseupStep ["a"] (fun _ => ⟨0, 0⟩) lassoState).store "a").fill
        = (lassoState.store "a").fill :=
  ⟨(C9_styling_is_border_only ["a"] (fun _ => ⟨0, 0⟩) lassoState "hi" "a").2.2.2.2
      rfl rfl
      (by simp [newSelection, lassoState, isInsidePolygon, edgePairs, edgeCrosses]),
    (C9_styling_is_border_only ["a"] (fun _ => ⟨0, 0⟩) lassoState "hi" "a").1⟩

/-! ### Claim C8 (corrected): toggling lasso off mid-draw, pointer-up and the
Drawing flag -/

/-- The overlay state right after the graph is rendered. -/
def initState : OverlayState :=
  { checked := false, isDrawing := false, lassoPoints := [], selectedNodeIDs := [],
    oldGoldNodes := [], dragView := true, zoomView := true, dragNodes := true,
    overlayPointerEventsAuto := false, store := fun _ => ⟨"#97c2fc", none, 1⟩,
    log := [] }

/-- Lasso on, one point drawn, lasso toggled off mid-draw. -/
def midDrawToggledOff : OverlayState :=
  toggleLasso true true true false
    (mousedownStep ⟨1, 2⟩ (toggleLasso true true true true initState))

/-- C8, counterexample: after `[toggle on, mousedown (1,2), toggle off]` the
in-progress polygon is NOT discarded (`lassoPoints` still holds the point)
and the subsequent pointer-up does NOT leave the `Drawing` state: the
checkbox being off, the mouseup handler is a no-op and `isDrawing` stays
`true`, refuting both halves of the claim on this event sequence. -/
theorem C8_toggle_off_mid_draw_counterexample :
    midDrawToggledOff.isDrawing = true
      ∧ midDrawToggledOff.lassoPoints = [⟨1, 2⟩]
      ∧ midDrawToggledOff.lassoPoints ≠ []
      ∧ (mouseupStep [] (fun _ => ⟨0, 0⟩) midDrawToggledOff).isDrawing = true :=
  ⟨rfl, rfl, by simp [midDrawToggledOff, mousedownStep, toggleLasso, initState], rfl⟩

/-- C8, amended: toggling lasso mode off mid-draw mutates no node style, but
it does not discard the in-progress polygon — it leaves `isDrawing`,
`lassoPoints` and the selection untouched; a pointer-up transitions out of
`Drawing` exactly when lasso mode is on at that moment (when it is off the
handler is a no-op, so the `Drawing` flag persists); the stale polygon is
replaced only at the next mousedown in lasso mode. -/
theorem C8_toggle_off_and_mouseup_amended
    (d z dn : Bool) (st : OverlayState) (p : Point)
    (nodeIds : List String) (pos : String → Point) :
    ((toggleLasso d z dn false st).store = st.store
        ∧ (toggleLasso d z dn false st).isDrawing = st.isDrawing
        ∧ (toggleLasso d z dn false st).lassoPoints = st.lassoPoints
        ∧ (toggleLasso d z dn false st).selectedNodeIDs = st.selectedNodeIDs)
      ∧ (st.isDrawing = true → st.checked = true →
          (mouseupStep nodeIds pos st).isDrawing = false)
      ∧ (st.checked = false → mouseupStep nodeIds pos st = st)
      ∧ (st.checked = true → (mousedownStep p st).lassoPoints = [p]) := by
  refine ⟨⟨rfl, rfl, rfl, rfl⟩, ?_, ?_, ?_⟩
  · intro h1 h2
    unfold mouseupStep
    rw [h1, h2, Bool.true_and, if_pos rfl]
  · intro hc
    unfold mouseupStep
    rw [hc, Bool.and_false]
    rfl
  · intro hc
    unfold mousedownStep
    rw [hc, if_pos rfl]

/-- C8, witness for the amended claim: in the concrete mid-draw-toggled-off
state a pointer-up is a no-op, and the next mousedown in lasso mode restarts
the polygon. -/
theorem C8_toggle_off_and_mouseup_amended_witness :
    mouseupStep [] (fun _ => ⟨0, 0⟩) midDrawToggledOff = midDrawToggledOff
      ∧ (mousedownStep ⟨3, 4⟩ lassoState).lassoPoints = [⟨3, 4⟩] :=
  ⟨(C8_toggle_off_and_mouseup_amended true true true midDrawToggledOff ⟨0, 0⟩
      [] (fun _ => ⟨0, 0⟩)).2.2.1 rfl,
    (C8_toggle_off_and_mouseup_amended true true true lassoState ⟨3, 4⟩
      [] (fun _ => ⟨0, 0⟩)).2.2.2 rfl⟩

end StreamlitRag
